import Mathlib

/-!
# QEMU guest agent: common command implementations (`qga/commands.c`)

A shallow embedding of the command handlers of `qga/commands.c`
(`slog`, `qmp_guest_sync_delimited`, `qmp_guest_sync`, `qmp_guest_ping`,
`qmp_guest_privacy_reset`, `qmp_guest_info`) and the properties of them that
the specification states.

Conventions of the embedding:

* the process state a handler can touch is a `Machine`: the delimited-mode flag
  of `ga_state`, the cell `*errp` of the running command, and the trace of
  externally visible effects performed so far;
* every call that leaves the file (libc, the kernel, the shell) is an entry of
  the trace; its return value is chosen by a `World`, an arbitrary function of
  the whole history and of the call being made, so that every combination of
  successes and failures is covered by quantifying over the `World`; every such
  call is taken to return;
* C strings are the list of bytes stored at the pointer, `strlen` counting up to
  the first zero byte.
-/

namespace Qga

/-! ## Effects and machine state -/

/-- The calls `qga/commands.c` makes to libc and the kernel, with their arguments. -/
inductive Call where
  /-- `open(path, flags)` -/
  | openFile (path : String) (flags : Nat)
  /-- `ioctl(fd, request)` -/
  | ioctl (fd : Int) (request : Nat)
  /-- `write(fd, buf, count)`, with `buf` the bytes stored at the pointer -/
  | write (fd : Int) (buf : List Nat) (count : Nat)
  /-- `close(fd)` -/
  | close (fd : Int)
  /-- `unlink(path)` -/
  | unlink (path : String)
  /-- `system(command)` -/
  | system (command : String)
  deriving DecidableEq, Repr

/-- One externally visible effect: a message handed to `g_logv`, or a call
together with the value it returned. -/
inductive Effect where
  /-- `g_logv(domain, level, message)` -/
  | log (domain : String) (level : Nat) (message : String)
  /-- a libc call and its return value -/
  | call (c : Call) (ret : Int)
  deriving DecidableEq, Repr

/-- The environment: the return value of a call, given everything that happened
before it. -/
abbrev World := List Effect → Call → Int

/-- The state visible to a command handler. -/
structure Machine where
  /-- `ga_state->delimit_response` -/
  delimit_response : Bool
  /-- the cell `*errp` of the running command (`none` is `NULL`: no error) -/
  err : Option String
  /-- effects performed so far, oldest first -/
  trace : List Effect
  deriving DecidableEq, Repr

/-- `G_LOG_LEVEL_INFO` of glib: `1 << 6`. -/
def G_LOG_LEVEL_INFO : Nat := 64

/-- `O_WRONLY` of `<fcntl.h>`. -/
def O_WRONLY : Nat := 1

/-- `RNDCLEARPOOL` of `<linux/random.h>`: `_IO('R', 0x06)`. -/
def RNDCLEARPOOL : Nat := 0x5206

/-- `INT64_MIN`. -/
def INT64_MIN : Int := -(2 ^ 63)

/-- `INT64_MAX`. -/
def INT64_MAX : Int := 2 ^ 63 - 1

/-- The values of the C type `int64_t`. -/
def isInt64 (t : Int) : Prop := INT64_MIN ≤ t ∧ t ≤ INT64_MAX

instance (t : Int) : Decidable (isInt64 t) := by
  unfold isInt64; exact inferInstance

/-- `strlen`: the number of bytes before the first zero byte. -/
def strlen (s : List Nat) : Nat := (s.takeWhile (fun b => b != 0)).length

/-- Perform one external call: ask the world for its return value and record
both in the trace. -/
def sys (w : World) (c : Call) (s : Machine) : Int × Machine :=
  let r := w s.trace c
  (r, { s with trace := s.trace ++ [Effect.call c r] })

/-- `slog(fmt)` for a format without conversions:
`g_logv("syslog", G_LOG_LEVEL_INFO, fmt, ap)`. -/
def slog (fmt : String) (s : Machine) : Machine :=
  { s with trace := s.trace ++ [Effect.log "syslog" G_LOG_LEVEL_INFO fmt] }

/-- The wrapper `IGNORE_RC(f)`, defined as `if (f == 0) {}`: the value is compared and both
branches are empty. -/
def IGNORE_RC (rc : Int) (s : Machine) : Machine :=
  if rc = 0 then s else s

/-! ## SyncGate -/

/-- Modelled from the spec: `ga_set_response_delimited`, defined in the agent's
main module and only called here. The spec says of it that it "sets the
process-wide delimited mode flag to true"; nothing else of the state changes. -/
def ga_set_response_delimited (s : Machine) : Machine :=
  { s with delimit_response := true }

/-- `int64_t qmp_guest_sync_delimited(int64_t id, Error **errp)`. -/
def qmp_guest_sync_delimited (id : Int) (s : Machine) : Int × Machine :=
  let s := ga_set_response_delimited s
  (id, s)

/-- `int64_t qmp_guest_sync(int64_t id, Error **errp)`. -/
def qmp_guest_sync (id : Int) (s : Machine) : Int × Machine :=
  (id, s)

/-- `void qmp_guest_ping(Error **err)`. -/
def qmp_guest_ping (s : Machine) : Machine :=
  slog "guest-ping called" s

/-! ## CapabilityCatalog -/

/-- `GuestAgentCommandInfo`. -/
structure GuestAgentCommandInfo where
  name : String
  enabled : Bool
  deriving DecidableEq, Repr

/-- `GuestAgentInfo`; the linked `GuestAgentCommandInfoList` is a list read from
its head. -/
structure GuestAgentInfo where
  version : String
  supported_commands : List GuestAgentCommandInfo
  deriving DecidableEq, Repr

/-- Modelled from the spec: the constant `QEMU_VERSION` comes from the build
configuration, outside this file. The spec calls it the "agent build identifier,
immutable for process lifetime" and asks for a non-empty `version`; a string is
an admissible build identifier when it is not empty. -/
def isBuildIdentifier (v : String) : Prop := v ≠ ""

instance (v : String) : Decidable (isBuildIdentifier v) := by
  unfold isBuildIdentifier; exact inferInstance

/-- The `while (*cmd_list)` loop of `qmp_guest_info`: each name becomes a
descriptor that is linked in front of `info->supported_commands`. -/
def qmp_guest_info_loop (qmp_command_is_enabled : String → Bool) :
    List String → GuestAgentInfo → GuestAgentInfo
  | [], info => info
  | name :: cmd_list, info =>
      let cmd_info : GuestAgentCommandInfo :=
        { name := name, enabled := qmp_command_is_enabled name }
      qmp_guest_info_loop qmp_command_is_enabled cmd_list
        { info with supported_commands := cmd_info :: info.supported_commands }

/-- `struct GuestAgentInfo *qmp_guest_info(Error **err)`.

The build identifier `QEMU_VERSION`, the array returned by
`qmp_get_command_list()` (its entries before the terminating `NULL`) and the
predicate `qmp_command_is_enabled` belong to other modules and are parameters. -/
def qmp_guest_info (QEMU_VERSION : String) (qmp_get_command_list : List String)
    (qmp_command_is_enabled : String → Bool) (s : Machine) : GuestAgentInfo × Machine :=
  let info : GuestAgentInfo := { version := QEMU_VERSION, supported_commands := [] }
  match qmp_get_command_list with
  | [] => (info, s)
  | cmd_list => (qmp_guest_info_loop qmp_command_is_enabled cmd_list info, s)

/-! ## PrivacyResetSequencer -/

/-- `void qmp_guest_privacy_reset(const char *seed, Error **errp)`.

`seed` is the bytes stored at the pointer. The local `fd` is assigned twice, as
in the source; every other return value is dropped, either directly or through
`IGNORE_RC`. -/
def qmp_guest_privacy_reset (w : World) (seed : List Nat) (s : Machine) : Machine :=
  let s := slog "guest-privacy-reset start" s
  -- Reset random entropy.
  let (fd, s) := sys w (Call.openFile "/dev/urandom" O_WRONLY) s
  let s :=
    if fd ≥ 0 then
      let (_, s) := sys w (Call.ioctl fd RNDCLEARPOOL) s
      let (rc, s) := sys w (Call.write fd seed (strlen seed)) s
      let s := IGNORE_RC rc s
      let (_, s) := sys w (Call.close fd) s
      s
    else s
  let (fd, s) := sys w (Call.openFile "/dev/random" O_WRONLY) s
  let s :=
    if fd ≥ 0 then
      let (_, s) := sys w (Call.ioctl fd RNDCLEARPOOL) s
      let (rc, s) := sys w (Call.write fd seed (strlen seed)) s
      let s := IGNORE_RC rc s
      let (_, s) := sys w (Call.close fd) s
      s
    else s
  -- Fry ssh host keys, replace with fresh ones after randomness reset.
  let (_, s) := sys w (Call.unlink "/etc/ssh/ssh_host_key") s
  let (_, s) := sys w (Call.unlink "/etc/ssh/ssh_host_key.pub") s
  let (_, s) := sys w (Call.unlink "/etc/ssh/ssh_host_rsa_key") s
  let (_, s) := sys w (Call.unlink "/etc/ssh/ssh_host_rsa_key.pub") s
  let (_, s) := sys w (Call.unlink "/etc/ssh/ssh_host_dsa_key") s
  let (_, s) := sys w (Call.unlink "/etc/ssh/ssh_host_dsa_key.pub") s
  let (rc, s) := sys w (Call.system "ssh-keygen -N '' -t rsa1 -f /etc/ssh/ssh_host_key") s
  let s := IGNORE_RC rc s
  let (rc, s) := sys w (Call.system "ssh-keygen -N '' -t rsa -f /etc/ssh/ssh_host_rsa_key") s
  let s := IGNORE_RC rc s
  let (rc, s) := sys w (Call.system "ssh-keygen -N '' -t dsa -f /etc/ssh/ssh_host_dsa_key") s
  let s := IGNORE_RC rc s
  let (rc, s) := sys w (Call.system "service sshd restart") s
  let s := IGNORE_RC rc s
  -- Restart eth-based physical network interfaces.
  let (rc, s) := sys w (Call.system
    "find /sys/class/net -type l -exec test -L \x7b\x7d/device \\; -print | xargs -n1 basename | xargs -n1 ifdown") s
  let s := IGNORE_RC rc s
  let (rc, s) := sys w (Call.system
    "find /sys/class/net -type l -exec test -L \x7b\x7d/device \\; -print | xargs -n1 basename | xargs -n1 ifup") s
  let s := IGNORE_RC rc s
  -- If there is a network service it needs kicking (centos).
  let (rc, s) := sys w (Call.system
    "bash -c '[ -f /etc/init.d/network ] && service network restart'") s
  let s := IGNORE_RC rc s
  slog "guest-privacy-reset finish" s

/-- The effects one invocation of `qmp_guest_privacy_reset` adds to the trace. -/
def privacyResetEffects (w : World) (seed : List Nat) (s : Machine) : List Effect :=
  (qmp_guest_privacy_reset w seed s).trace.drop s.trace.length

/-- The world in which every external call fails: `open`, `ioctl`, `write`,
`close`, `unlink` and `system` all return `-1`. -/
def allFail : World := fun _ _ => -1

/-- The "start" marker as it reaches `g_logv`. -/
def logStart : Effect := Effect.log "syslog" G_LOG_LEVEL_INFO "guest-privacy-reset start"

/-- The "finish" marker as it reaches `g_logv`. -/
def logFinish : Effect := Effect.log "syslog" G_LOG_LEVEL_INFO "guest-privacy-reset finish"

/-- Whether an effect is a log entry. -/
def Effect.isLog : Effect → Bool
  | Effect.log _ _ _ => true
  | Effect.call _ _ => false

/-- The calls of a trace, in order, without their return values. -/
def callsOf : List Effect → List Call
  | [] => []
  | Effect.log _ _ _ :: t => callsOf t
  | Effect.call c _ :: t => c :: callsOf t

/-- The calls of the entropy step: what is done to a randomness device. -/
def isEntropyCall : Call → Bool
  | Call.openFile _ _ => true
  | Call.ioctl _ _ => true
  | Call.write _ _ _ => true
  | Call.close _ => true
  | Call.unlink _ => false
  | Call.system _ => false

/-- The value returned by the first `open` of `path` recorded in a trace. -/
def openResult (path : String) : List Effect → Option Int
  | [] => none
  | Effect.call (Call.openFile p _) r :: t => if p = path then some r else openResult path t
  | _ :: t => openResult path t

/-- The spec's step 1 for one randomness source whose `open` returned `fd`:
"if the source is accessible: clear its internal pool, then feed the
caller-supplied seed bytes into it", and nothing otherwise. -/
def sourceActions (path : String) (fd : Int) (seed : List Nat) : List Call :=
  Call.openFile path O_WRONLY ::
    (if fd ≥ 0 then
      [Call.ioctl fd RNDCLEARPOOL, Call.write fd seed (strlen seed), Call.close fd]
    else [])

/-- The six host key files of the spec's step 2: three key algorithms, each with
a private and a public file. -/
def hostKeyFiles : List String :=
  ["/etc/ssh/ssh_host_key", "/etc/ssh/ssh_host_key.pub",
   "/etc/ssh/ssh_host_rsa_key", "/etc/ssh/ssh_host_rsa_key.pub",
   "/etc/ssh/ssh_host_dsa_key", "/etc/ssh/ssh_host_dsa_key.pub"]

/-- The three key generations of the spec's step 3: key type and output file. -/
def keyGenerations : List (String × String) :=
  [("rsa1", "/etc/ssh/ssh_host_key"), ("rsa", "/etc/ssh/ssh_host_rsa_key"),
   ("dsa", "/etc/ssh/ssh_host_dsa_key")]

/-- The key-generation command for a key type and an output file, with an empty
passphrase (`-N ''`). -/
def sshKeygen (type file : String) : String :=
  "ssh-keygen -N '' -t " ++ type ++ " -f " ++ file

/-- The pipeline of the spec's step 5 that hands every interface with a device
link to `util`, one interface per invocation. -/
def netPipeline (util : String) : String :=
  "find /sys/class/net -type l -exec test -L \x7b\x7d/device \\; -print | xargs -n1 basename | xargs -n1 "
    ++ util

/-- The spec's steps 2 to 6 as a list of actions: host key destruction, host key
regeneration, service restart, interface down phase, interface up phase,
conditional network service restart. -/
def remediationPlan : List Call :=
  hostKeyFiles.map Call.unlink ++
  keyGenerations.map (fun k => Call.system (sshKeygen k.1 k.2)) ++
  [Call.system "service sshd restart",
   Call.system (netPipeline "ifdown"),
   Call.system (netPipeline "ifup"),
   Call.system "bash -c '[ -f /etc/init.d/network ] && service network restart'"]

/-- A world in which `/dev/urandom` opens as descriptor 3 and every other call
fails, the pool-clear and the write on descriptor 3 included. -/
def onlyUrandomOpens : World := fun _ c =>
  match c with
  | Call.openFile path _ => if path = "/dev/urandom" then 3 else -1
  | _ => -1

/-! ## The core operations as one step function -/

/-- The agent's view of the dispatcher-owned registry and of the build. -/
structure Registry where
  QEMU_VERSION : String
  qmp_get_command_list : List String
  qmp_command_is_enabled : String → Bool

/-- The requests the dispatcher can hand to this file. -/
inductive CoreOp where
  | Sync (id : Int)
  | SyncDelimited (id : Int)
  | GetInfo
  | PrivacyReset (seed : List Nat)
  | ping

/-- Whether the request is a delimited sync. -/
def CoreOp.isSyncDelimited : CoreOp → Bool
  | CoreOp.SyncDelimited _ => true
  | _ => false

/-- The machine after the handler of a request has run. -/
def CoreOp.run (w : World) (reg : Registry) : CoreOp → Machine → Machine
  | CoreOp.Sync id, s => (qmp_guest_sync id s).2
  | CoreOp.SyncDelimited id, s => (qmp_guest_sync_delimited id s).2
  | CoreOp.GetInfo, s =>
      (qmp_guest_info reg.QEMU_VERSION reg.qmp_get_command_list reg.qmp_command_is_enabled s).2
  | CoreOp.PrivacyReset seed, s => qmp_guest_privacy_reset w seed s
  | CoreOp.ping, s => qmp_guest_ping s

/-- The machine after a sequence of requests, handled one after the other. -/
def runAll (w : World) (reg : Registry) : List CoreOp → Machine → Machine
  | [], s => s
  | op :: ops, s => runAll w reg ops (CoreOp.run w reg op s)

/-! ## Auxiliary definitions -/

/-- The effects of a list of calls that returned the given values. -/
def effectsOf (cs : List Call) (rs : List Int) : List Effect :=
  List.zipWith Effect.call cs rs

/-- Perform a list of calls one after the other, dropping the return values. -/
def runCalls (w : World) : List Call → Machine → Machine
  | [], s => s
  | c :: cs, s => runCalls w cs (sys w c s).2

/-- The entropy step for one source, as a sequence of calls. -/
def resetSource (w : World) (path : String) (seed : List Nat) (s : Machine) : Machine :=
  runCalls w (sourceActions path (sys w (Call.openFile path O_WRONLY) s).1 seed) s

/-! ## Shared lemmas -/

theorem remediationPlan_eq : remediationPlan =
    [Call.unlink "/etc/ssh/ssh_host_key", Call.unlink "/etc/ssh/ssh_host_key.pub",
     Call.unlink "/etc/ssh/ssh_host_rsa_key", Call.unlink "/etc/ssh/ssh_host_rsa_key.pub",
     Call.unlink "/etc/ssh/ssh_host_dsa_key", Call.unlink "/etc/ssh/ssh_host_dsa_key.pub",
     Call.system "ssh-keygen -N '' -t rsa1 -f /etc/ssh/ssh_host_key",
     Call.system "ssh-keygen -N '' -t rsa -f /etc/ssh/ssh_host_rsa_key",
     Call.system "ssh-keygen -N '' -t dsa -f /etc/ssh/ssh_host_dsa_key",
     Call.system "service sshd restart",
     Call.system "find /sys/class/net -type l -exec test -L \x7b\x7d/device \\; -print | xargs -n1 basename | xargs -n1 ifdown",
     Call.system "find /sys/class/net -type l -exec test -L \x7b\x7d/device \\; -print | xargs -n1 basename | xargs -n1 ifup",
     Call.system "bash -c '[ -f /etc/init.d/network ] && service network restart'"] := by
  decide

theorem resetSource_eq (w : World) (path : String) (seed : List Nat) (s : Machine) :
    (if (sys w (Call.openFile path O_WRONLY) s).1 ≥ 0 then
      (sys w (Call.close (sys w (Call.openFile path O_WRONLY) s).1)
        (sys w (Call.write (sys w (Call.openFile path O_WRONLY) s).1 seed (strlen seed))
          (sys w (Call.ioctl (sys w (Call.openFile path O_WRONLY) s).1 RNDCLEARPOOL)
            (sys w (Call.openFile path O_WRONLY) s).2).2).2).2
    else (sys w (Call.openFile path O_WRONLY) s).2) = resetSource w path seed s := by
  unfold resetSource sourceActions
  simp only [runCalls]
  split_ifs <;> rfl

theorem privacyReset_eq (w : World) (seed : List Nat) (s : Machine) :
    qmp_guest_privacy_reset w seed s =
      slog "guest-privacy-reset finish" (runCalls w remediationPlan
        (resetSource w "/dev/random" seed (resetSource w "/dev/urandom" seed
          (slog "guest-privacy-reset start" s)))) := by
  rw [remediationPlan_eq]
  unfold qmp_guest_privacy_reset
  simp only [IGNORE_RC, ite_self, runCalls, resetSource_eq]

theorem runCalls_shape (w : World) (cs : List Call) (s : Machine) :
    ∃ rs : List Int, rs.length = cs.length ∧
      runCalls w cs s = { s with trace := s.trace ++ effectsOf cs rs } := by
  induction cs generalizing s with
  | nil => exact ⟨[], rfl, by simp [runCalls, effectsOf]⟩
  | cons c cs ih =>
    obtain ⟨rs, hlen, hrun⟩ := ih (sys w c s).2
    refine ⟨(sys w c s).1 :: rs, by simp [hlen], ?_⟩
    rw [runCalls, hrun]
    simp [sys, effectsOf]

theorem resetSource_shape (w : World) (path : String) (seed : List Nat) (s : Machine) :
    ∃ (fd : Int) (rs : List Int),
      (fd :: rs).length = (sourceActions path fd seed).length ∧
      resetSource w path seed s =
        { s with trace := s.trace ++ effectsOf (sourceActions path fd seed) (fd :: rs) } := by
  obtain ⟨rs, hlen, hrun⟩ := runCalls_shape w
    (if (sys w (Call.openFile path O_WRONLY) s).1 ≥ 0 then
      [Call.ioctl (sys w (Call.openFile path O_WRONLY) s).1 RNDCLEARPOOL,
       Call.write (sys w (Call.openFile path O_WRONLY) s).1 seed (strlen seed),
       Call.close (sys w (Call.openFile path O_WRONLY) s).1]
    else []) (sys w (Call.openFile path O_WRONLY) s).2
  refine ⟨(sys w (Call.openFile path O_WRONLY) s).1, rs, by simp [sourceActions, hlen], ?_⟩
  unfold resetSource
  rw [sourceActions, runCalls, hrun]
  simp [sys, effectsOf]

/-- Shape of one invocation: the machine changes only by its trace, which grows
by the start marker, the calls on the two entropy sources, the calls of the
remediation plan (each with some return value) and the finish marker. -/
theorem privacyReset_shape (w : World) (seed : List Nat) (s : Machine) :
    ∃ (fd1 fd2 : Int) (rs1 rs2 rs3 : List Int),
      (fd1 :: rs1).length = (sourceActions "/dev/urandom" fd1 seed).length ∧
      (fd2 :: rs2).length = (sourceActions "/dev/random" fd2 seed).length ∧
      rs3.length = remediationPlan.length ∧
      qmp_guest_privacy_reset w seed s =
        { s with trace := s.trace ++ (logStart ::
            (effectsOf (sourceActions "/dev/urandom" fd1 seed) (fd1 :: rs1) ++
              (effectsOf (sourceActions "/dev/random" fd2 seed) (fd2 :: rs2) ++
                (effectsOf remediationPlan rs3 ++ [logFinish])))) } := by
  obtain ⟨fd1, rs1, h1, e1⟩ := resetSource_shape w "/dev/urandom" seed
    (slog "guest-privacy-reset start" s)
  obtain ⟨fd2, rs2, h2, e2⟩ := resetSource_shape w "/dev/random" seed
    (resetSource w "/dev/urandom" seed (slog "guest-privacy-reset start" s))
  obtain ⟨rs3, h3, e3⟩ := runCalls_shape w remediationPlan
    (resetSource w "/dev/random" seed (resetSource w "/dev/urandom" seed
      (slog "guest-privacy-reset start" s)))
  refine ⟨fd1, fd2, rs1, rs2, rs3, h1, h2, h3, ?_⟩
  rw [privacyReset_eq, e3, e2, e1]
  simp [slog, logStart, logFinish]

/-- The effects added by one invocation, in the shape of `privacyReset_shape`. -/
theorem privacyResetEffects_shape (w : World) (seed : List Nat) (s : Machine) :
    ∃ (fd1 fd2 : Int) (rs1 rs2 rs3 : List Int),
      (fd1 :: rs1).length = (sourceActions "/dev/urandom" fd1 seed).length ∧
      (fd2 :: rs2).length = (sourceActions "/dev/random" fd2 seed).length ∧
      rs3.length = remediationPlan.length ∧
      privacyResetEffects w seed s = logStart ::
        (effectsOf (sourceActions "/dev/urandom" fd1 seed) (fd1 :: rs1) ++
          (effectsOf (sourceActions "/dev/random" fd2 seed) (fd2 :: rs2) ++
            (effectsOf remediationPlan rs3 ++ [logFinish]))) := by
  obtain ⟨fd1, fd2, rs1, rs2, rs3, h1, h2, h3, e⟩ := privacyReset_shape w seed s
  refine ⟨fd1, fd2, rs1, rs2, rs3, h1, h2, h3, ?_⟩
  unfold privacyResetEffects
  rw [e]
  simp

theorem callsOf_append (a b : List Effect) : callsOf (a ++ b) = callsOf a ++ callsOf b := by
  induction a with
  | nil => rfl
  | cons e a ih => cases e <;> simp [callsOf, ih]

theorem callsOf_effectsOf (cs : List Call) (rs : List Int) (h : rs.length = cs.length) :
    callsOf (effectsOf cs rs) = cs := by
  induction cs generalizing rs with
  | nil => cases rs <;> simp [effectsOf, callsOf]
  | cons c cs ih =>
    cases rs with
    | nil => simp at h
    | cons r rs =>
      have := ih rs (by simpa using h)
      simpa [effectsOf, callsOf] using this

theorem filter_isLog_effectsOf (cs : List Call) (rs : List Int) :
    (effectsOf cs rs).filter Effect.isLog = [] := by
  induction cs generalizing rs with
  | nil => cases rs <;> simp [effectsOf]
  | cons c cs ih =>
    cases rs with
    | nil => simp [effectsOf]
    | cons r rs =>
      have := ih rs
      simpa [effectsOf, Effect.isLog] using this

theorem sourceActions_entropy (path : String) (fd : Int) (seed : List Nat) :
    ∀ c ∈ sourceActions path fd seed, isEntropyCall c = true := by
  intro c hc
  unfold sourceActions at hc
  split_ifs at hc <;> simp at hc
  · rcases hc with h | h | h | h <;> subst h <;> rfl
  · subst hc; rfl

/-- The calls of one invocation: the two entropy sources, each according to the
result of its own `open`, then the remediation plan. -/
theorem privacyReset_calls (w : World) (seed : List Nat) (s : Machine) :
    ∃ fd1 fd2 : Int,
      openResult "/dev/urandom" (privacyResetEffects w seed s) = some fd1 ∧
      openResult "/dev/random" (privacyResetEffects w seed s) = some fd2 ∧
      callsOf (privacyResetEffects w seed s) =
        (sourceActions "/dev/urandom" fd1 seed ++ sourceActions "/dev/random" fd2 seed) ++
          remediationPlan := by
  obtain ⟨fd1, fd2, rs1, rs2, rs3, h1, h2, h3, e⟩ := privacyResetEffects_shape w seed s
  refine ⟨fd1, fd2, ?_, ?_, ?_⟩
  · rw [e]
    simp [sourceActions, effectsOf, openResult]
  · rw [e]
    by_cases hfd : fd1 ≥ 0
    · simp only [sourceActions, if_pos hfd, List.length_cons, List.length_nil] at h1
      match rs1, h1 with
      | [a, b, c], _ => simp [sourceActions, effectsOf, openResult, hfd]
    · simp only [sourceActions, if_neg hfd, List.length_cons, List.length_nil] at h1
      match rs1, h1 with
      | [], _ => simp [sourceActions, effectsOf, openResult, hfd]
  · have hstart : ∀ t, callsOf (logStart :: t) = callsOf t := fun _ => rfl
    have hfinish : callsOf [logFinish] = [] := rfl
    rw [e, hstart, callsOf_append, callsOf_append, callsOf_append, hfinish,
      callsOf_effectsOf _ _ h1, callsOf_effectsOf _ _ h2, callsOf_effectsOf _ _ h3]
    simp

theorem remediationPlan_facts :
    remediationPlan.dropWhile isEntropyCall = remediationPlan ∧
    remediationPlan.takeWhile isEntropyCall = [] ∧
    remediationPlan.filter isEntropyCall = [] ∧
    remediationPlan.filter (fun c => !isEntropyCall c) = remediationPlan ∧
    remediationPlan.map (fun c => remediationPlan.count c) = List.replicate 13 1 := by
  rw [remediationPlan_eq]
  decide

theorem count_plan_call (pre : List Call) (hpre : ∀ c ∈ pre, isEntropyCall c = true) :
    remediationPlan.map (fun c => (pre ++ remediationPlan).count c) = List.replicate 13 1 := by
  rw [← remediationPlan_facts.2.2.2.2]
  apply List.map_congr_left
  intro c hc
  have hnot : isEntropyCall c = false := by
    have hmem : c ∈ remediationPlan.filter (fun c => !isEntropyCall c) := by
      rw [remediationPlan_facts.2.2.2.1]; exact hc
    simpa using (List.mem_filter.mp hmem).2
  have : c ∉ pre := fun h => by simp [hpre c h] at hnot
  simp [List.count_append, List.count_eq_zero_of_not_mem this]

theorem qmp_guest_info_loop_eq (f : String → Bool) (names : List String) (info : GuestAgentInfo) :
    qmp_guest_info_loop f names info =
      { info with supported_commands :=
          (names.map (fun n => ({ name := n, enabled := f n } : GuestAgentCommandInfo))).reverse
            ++ info.supported_commands } := by
  induction names generalizing info with
  | nil => simp [qmp_guest_info_loop]
  | cons n names ih => simp [qmp_guest_info_loop, ih]

theorem qmp_guest_info_eq (v : String) (names : List String) (f : String → Bool) (s : Machine) :
    qmp_guest_info v names f s =
      ({ version := v,
         supported_commands :=
          (names.map (fun n => ({ name := n, enabled := f n } : GuestAgentCommandInfo))).reverse },
       s) := by
  cases names with
  | nil => simp [qmp_guest_info]
  | cons n names => simp [qmp_guest_info, qmp_guest_info_loop_eq]

theorem privacyReset_flag (w : World) (seed : List Nat) (s : Machine) :
    (qmp_guest_privacy_reset w seed s).delimit_response = s.delimit_response := by
  obtain ⟨fd1, fd2, rs1, rs2, rs3, _, _, _, e⟩ := privacyReset_shape w seed s
  rw [e]

theorem run_flag (w : World) (reg : Registry) (op : CoreOp) (s : Machine) :
    (CoreOp.run w reg op s).delimit_response = (s.delimit_response || op.isSyncDelimited) := by
  cases op with
  | Sync id => simp [CoreOp.run, qmp_guest_sync, CoreOp.isSyncDelimited]
  | SyncDelimited id =>
    simp [CoreOp.run, qmp_guest_sync_delimited, ga_set_response_delimited,
      CoreOp.isSyncDelimited]
  | GetInfo => simp [CoreOp.run, qmp_guest_info_eq, CoreOp.isSyncDelimited]
  | PrivacyReset seed => simp [CoreOp.run, privacyReset_flag, CoreOp.isSyncDelimited]
  | ping => simp [CoreOp.run, qmp_guest_ping, slog, CoreOp.isSyncDelimited]

theorem runAll_flag_stays (w : World) (reg : Registry) (ops : List CoreOp) (s : Machine)
    (h : s.delimit_response = true) : (runAll w reg ops s).delimit_response = true := by
  induction ops generalizing s with
  | nil => simpa [runAll] using h
  | cons op ops ih =>
    rw [runAll]
    apply ih
    rw [run_flag, h]
    rfl

theorem runAll_append (w : World) (reg : Registry) (a b : List CoreOp) (s : Machine) :
    runAll w reg (a ++ b) s = runAll w reg b (runAll w reg a s) := by
  induction a generalizing s with
  | nil => rfl
  | cons op a ih => simp [runAll, ih]

/-! ## The claims -/

/-- C1: for every registry enumeration `names` (of any length, names not assumed
distinct), the `supported_commands` list returned by `qmp_guest_info` has
exactly as many entries as `names` and the names of its entries, read head to
tail, are `names` reversed; for the registry `["a","b","c"]` the order is
`["c","b","a"]`. -/
theorem guest_info_reverse_order (v : String) (names : List String) (f : String → Bool)
    (s : Machine) :
    (qmp_guest_info v names f s).1.supported_commands.length = names.length ∧
    (qmp_guest_info v names f s).1.supported_commands.map GuestAgentCommandInfo.name
      = names.reverse ∧
    (qmp_guest_info v ["a", "b", "c"] f s).1.supported_commands.map GuestAgentCommandInfo.name
      = ["c", "b", "a"] := by
  refine ⟨?_, ?_, ?_⟩
  · simp [qmp_guest_info_eq]
  · simp [qmp_guest_info_eq, Function.comp_def]
  · simp [qmp_guest_info_eq]

/-- C2: every descriptor `d` of the list returned by `qmp_guest_info` carries
`d.enabled = qmp_command_is_enabled d.name`, for the predicate handed to the
call; hence any other entry of the list with the same name carries the same
`enabled` value. -/
theorem guest_info_enabled_matches (v : String) (names : List String) (f : String → Bool)
    (s : Machine) (d : GuestAgentCommandInfo)
    (hd : d ∈ (qmp_guest_info v names f s).1.supported_commands) :
    d.enabled = f d.name ∧
    ∀ d2 : GuestAgentCommandInfo, d2 ∈ (qmp_guest_info v names f s).1.supported_commands →
      d2.name = d.name → d2.enabled = d.enabled := by
  have key : ∀ e : GuestAgentCommandInfo,
      e ∈ (qmp_guest_info v names f s).1.supported_commands → e.enabled = f e.name := by
    intro e he
    simp only [qmp_guest_info_eq, List.mem_reverse, List.mem_map] at he
    obtain ⟨n, _, rfl⟩ := he
    rfl
  refine ⟨key d hd, ?_⟩
  intro d2 hd2 hname
  rw [key d2 hd2, key d hd, hname]

/-- Witness for C2: the registry `["a","b","a"]` with only `"a"` enabled. -/
theorem guest_info_enabled_matches_witness :
    (⟨"a", true⟩ : GuestAgentCommandInfo) ∈
      (qmp_guest_info "1.4.0" ["a", "b", "a"] (fun n => n == "a") ⟨false, none, []⟩).1.supported_commands ∧
    ((⟨"a", true⟩ : GuestAgentCommandInfo).enabled
        = (fun n => n == "a") (⟨"a", true⟩ : GuestAgentCommandInfo).name ∧
      ∀ d2 : GuestAgentCommandInfo,
        d2 ∈ (qmp_guest_info "1.4.0" ["a", "b", "a"] (fun n => n == "a")
          ⟨false, none, []⟩).1.supported_commands →
        d2.name = (⟨"a", true⟩ : GuestAgentCommandInfo).name →
        d2.enabled = (⟨"a", true⟩ : GuestAgentCommandInfo).enabled) :=
  ⟨by decide,
   guest_info_enabled_matches "1.4.0" ["a", "b", "a"] (fun n => n == "a") ⟨false, none, []⟩
     ⟨"a", true⟩ (by decide)⟩

/-- C3: for every 64-bit signed token `t` and every prior machine state (so every
prior value of the delimited-mode flag), `qmp_guest_sync` returns exactly `t`,
`qmp_guest_sync_delimited` returns exactly `t` (a value of `int64_t` again), and
neither writes the error cell `*errp`. -/
theorem sync_echoes_token (t : Int) (s : Machine) (ht : isInt64 t) :
    (qmp_guest_sync t s).1 = t ∧ (qmp_guest_sync t s).2.err = s.err ∧
    (qmp_guest_sync_delimited t s).1 = t ∧ (qmp_guest_sync_delimited t s).2.err = s.err ∧
    isInt64 (qmp_guest_sync t s).1 ∧ isInt64 (qmp_guest_sync_delimited t s).1 :=
  ⟨rfl, rfl, rfl, rfl, ht, ht⟩

/-- Witness for C3: the minimum and the maximum token, flag clear and flag set. -/
theorem sync_echoes_token_witness :
    (isInt64 INT64_MIN ∧
      ((qmp_guest_sync INT64_MIN ⟨false, none, []⟩).1 = INT64_MIN ∧
       (qmp_guest_sync INT64_MIN ⟨false, none, []⟩).2.err = none ∧
       (qmp_guest_sync_delimited INT64_MIN ⟨false, none, []⟩).1 = INT64_MIN ∧
       (qmp_guest_sync_delimited INT64_MIN ⟨false, none, []⟩).2.err = none ∧
       isInt64 (qmp_guest_sync INT64_MIN ⟨false, none, []⟩).1 ∧
       isInt64 (qmp_guest_sync_delimited INT64_MIN ⟨false, none, []⟩).1)) ∧
    (isInt64 INT64_MAX ∧
      ((qmp_guest_sync INT64_MAX ⟨true, none, []⟩).1 = INT64_MAX ∧
       (qmp_guest_sync INT64_MAX ⟨true, none, []⟩).2.err = none ∧
       (qmp_guest_sync_delimited INT64_MAX ⟨true, none, []⟩).1 = INT64_MAX ∧
       (qmp_guest_sync_delimited INT64_MAX ⟨true, none, []⟩).2.err = none ∧
       isInt64 (qmp_guest_sync INT64_MAX ⟨true, none, []⟩).1 ∧
       isInt64 (qmp_guest_sync_delimited INT64_MAX ⟨true, none, []⟩).1)) :=
  ⟨⟨by decide, sync_echoes_token INT64_MIN ⟨false, none, []⟩ (by decide)⟩,
   ⟨by decide, sync_echoes_token INT64_MAX ⟨true, none, []⟩ (by decide)⟩⟩

/-- C4: the delimited-mode flag is changed only by `qmp_guest_sync_delimited` and
only towards true: for every core operation `op` (sync, delimited sync, info,
privacy reset, ping), every argument and every prior state, the flag after `op`
is the prior flag or-ed with "`op` is a delimited sync"; so `qmp_guest_sync`
leaves the flag alone, and once a delimited sync has run, the flag reads true
after any further sequence of core operations. -/
theorem delimited_flag_only_set (w : World) (reg : Registry) :
    (∀ (op : CoreOp) (s : Machine),
      (CoreOp.run w reg op s).delimit_response = (s.delimit_response || op.isSyncDelimited)) ∧
    (∀ (t : Int) (s : Machine), (qmp_guest_sync t s).2.delimit_response = s.delimit_response) ∧
    (∀ (before after : List CoreOp) (t : Int) (s : Machine),
      (runAll w reg (before ++ CoreOp.SyncDelimited t :: after) s).delimit_response = true) := by
  refine ⟨run_flag w reg, fun _ _ => rfl, ?_⟩
  intro before after t s
  rw [runAll_append, runAll]
  apply runAll_flag_stays
  rw [run_flag]
  simp [CoreOp.isSyncDelimited]

/-- C5: for every seed and every world (every combination of success and failure
of the external calls), `qmp_guest_privacy_reset` returns, leaves the error cell
`*errp` as it found it, only extends the trace, and the last effect is the
"guest-privacy-reset finish" log entry; in the world where every external call
fails, the effects are the start marker, the two failed `open`s, the thirteen
calls of the remediation plan, and the finish marker. -/
theorem privacy_reset_never_fails (w : World) (seed : List Nat) (s : Machine) :
    (qmp_guest_privacy_reset w seed s).err = s.err ∧
    (qmp_guest_privacy_reset w seed s).trace = s.trace ++ privacyResetEffects w seed s ∧
    (privacyResetEffects w seed s).getLast? = some logFinish ∧
    (qmp_guest_privacy_reset allFail seed s).err = s.err ∧
    privacyResetEffects allFail seed s =
      logStart ::
        (effectsOf
          (Call.openFile "/dev/urandom" O_WRONLY :: Call.openFile "/dev/random" O_WRONLY ::
            remediationPlan)
          (List.replicate 15 (-1)) ++ [logFinish]) := by
  have herr : ∀ w', (qmp_guest_privacy_reset w' seed s).err = s.err := by
    intro w'
    obtain ⟨fd1, fd2, rs1, rs2, rs3, _, _, _, e⟩ := privacyReset_shape w' seed s
    rw [e]
  refine ⟨herr w, ?_, ?_, herr allFail, ?_⟩
  · obtain ⟨fd1, fd2, rs1, rs2, rs3, _, _, _, e⟩ := privacyReset_shape w seed s
    unfold privacyResetEffects
    rw [e]
    simp
  · obtain ⟨fd1, fd2, rs1, rs2, rs3, _, _, _, e⟩ := privacyResetEffects_shape w seed s
    rw [e]
    simp [List.getLast?_cons, ← List.append_assoc]
  · rw [remediationPlan_eq]
    simp [privacyResetEffects, qmp_guest_privacy_reset, sys, slog, IGNORE_RC, allFail,
      effectsOf, logStart, logFinish, List.replicate]

/-- C6: for every seed and every world, the effects of one invocation of
`qmp_guest_privacy_reset` contain exactly two log entries, the start marker and
the finish marker in that order; the start marker is the first effect of the
invocation and the finish marker the last, so every call lies between them and
no log entry does. -/
theorem privacy_reset_log_markers (w : World) (seed : List Nat) (s : Machine) :
    (privacyResetEffects w seed s).filter Effect.isLog = [logStart, logFinish] ∧
    (privacyResetEffects w seed s).head? = some logStart ∧
    (privacyResetEffects w seed s).getLast? = some logFinish ∧
    (privacyResetEffects w seed s).count logStart = 1 ∧
    (privacyResetEffects w seed s).count logFinish = 1 := by
  obtain ⟨fd1, fd2, rs1, rs2, rs3, _, _, _, e⟩ := privacyResetEffects_shape w seed s
  have hf : (privacyResetEffects w seed s).filter Effect.isLog = [logStart, logFinish] := by
    rw [e]
    simp [List.filter_cons, List.filter_append, filter_isLog_effectsOf, logStart, logFinish,
      Effect.isLog]
  have hcount : ∀ e : Effect, e.isLog = true →
      (privacyResetEffects w seed s).count e = [logStart, logFinish].count e := by
    intro e he
    rw [← hf, List.count_filter he]
  refine ⟨hf, ?_, ?_, ?_, ?_⟩
  · rw [e]; rfl
  · rw [e]
    simp [List.getLast?_cons, ← List.append_assoc]
  · rw [hcount logStart rfl]; decide
  · rw [hcount logFinish rfl]; decide

/-- C8: the `version` returned by `qmp_guest_info` is the build identifier
`QEMU_VERSION` for every registry content and every enabled-predicate, hence
non-empty whenever the build identifier is; and when the registry enumerates no
command, `supported_commands` is the empty list. -/
theorem guest_info_version (v : String) (names : List String) (f : String → Bool)
    (s : Machine) (hv : isBuildIdentifier v) :
    (qmp_guest_info v [] f s).1.supported_commands = [] ∧
    (qmp_guest_info v [] f s).1.version = v ∧
    (qmp_guest_info v names f s).1.version = v ∧
    (qmp_guest_info v names f s).1.version ≠ "" := by
  refine ⟨rfl, rfl, ?_, ?_⟩
  · simp [qmp_guest_info_eq]
  · simpa [qmp_guest_info_eq] using hv

/-- Witness for C8: build identifier `"1.4.0"`, a registry of two commands. -/
theorem guest_info_version_witness :
    isBuildIdentifier "1.4.0" ∧
    ((qmp_guest_info "1.4.0" [] (fun _ => true) ⟨false, none, []⟩).1.supported_commands = [] ∧
     (qmp_guest_info "1.4.0" [] (fun _ => true) ⟨false, none, []⟩).1.version = "1.4.0" ∧
     (qmp_guest_info "1.4.0" ["guest-sync", "guest-ping"] (fun _ => true)
        ⟨false, none, []⟩).1.version = "1.4.0" ∧
     (qmp_guest_info "1.4.0" ["guest-sync", "guest-ping"] (fun _ => true)
        ⟨false, none, []⟩).1.version ≠ "") :=
  ⟨by decide,
   guest_info_version "1.4.0" ["guest-sync", "guest-ping"] (fun _ => true) ⟨false, none, []⟩
     (by decide)⟩

/-- C9: for every seed and every world, the calls of `qmp_guest_privacy_reset`
that are not entropy-reset calls are exactly the remediation plan, attempted
once each in its fixed order and only after the last entropy-reset call:
removal of the six host key files, the three key generations (rsa1, rsa, dsa,
each with an empty passphrase and writing to a private-key file removed
before), the sshd restart, the interface down pipeline, the interface up
pipeline, and the conditional network service restart. The plan is the same for
every world, so it does not depend on the outcome of any earlier call. -/
theorem remediation_fixed_order (w : World) (seed : List Nat) (s : Machine) :
    (callsOf (privacyResetEffects w seed s)).dropWhile isEntropyCall = remediationPlan ∧
    (callsOf (privacyResetEffects w seed s)).filter (fun c => !isEntropyCall c)
      = remediationPlan ∧
    remediationPlan.map (fun c => (callsOf (privacyResetEffects w seed s)).count c)
      = List.replicate 13 1 ∧
    remediationPlan =
      [Call.unlink "/etc/ssh/ssh_host_key", Call.unlink "/etc/ssh/ssh_host_key.pub",
       Call.unlink "/etc/ssh/ssh_host_rsa_key", Call.unlink "/etc/ssh/ssh_host_rsa_key.pub",
       Call.unlink "/etc/ssh/ssh_host_dsa_key", Call.unlink "/etc/ssh/ssh_host_dsa_key.pub",
       Call.system "ssh-keygen -N '' -t rsa1 -f /etc/ssh/ssh_host_key",
       Call.system "ssh-keygen -N '' -t rsa -f /etc/ssh/ssh_host_rsa_key",
       Call.system "ssh-keygen -N '' -t dsa -f /etc/ssh/ssh_host_dsa_key",
       Call.system "service sshd restart",
       Call.system (netPipeline "ifdown"),
       Call.system (netPipeline "ifup"),
       Call.system "bash -c '[ -f /etc/init.d/network ] && service network restart'"] ∧
    keyGenerations.all (fun k => decide (k.2 ∈ hostKeyFiles)) = true := by
  obtain ⟨fd1, fd2, _, _, hcalls⟩ := privacyReset_calls w seed s
  have hpre : ∀ c ∈ sourceActions "/dev/urandom" fd1 seed ++ sourceActions "/dev/random" fd2 seed,
      isEntropyCall c = true := by
    intro c hc
    rcases List.mem_append.mp hc with h | h
    · exact sourceActions_entropy _ _ _ c h
    · exact sourceActions_entropy _ _ _ c h
  refine ⟨?_, ?_, ?_, by decide, by decide⟩
  · rw [hcalls, List.dropWhile_append_of_pos hpre]
    exact remediationPlan_facts.1
  · rw [hcalls, List.filter_append, remediationPlan_facts.2.2.2.1]
    have : (sourceActions "/dev/urandom" fd1 seed ++ sourceActions "/dev/random" fd2 seed).filter
        (fun c => !isEntropyCall c) = [] := by
      rw [List.filter_eq_nil_iff]
      intro c hc
      simp [hpre c hc]
    rw [this]
    rfl
  · rw [hcalls]
    exact count_plan_call _ hpre

/-- C10: for every seed and every world, the entropy step is the `open` of
`/dev/urandom` followed by the `open` of `/dev/random`, each followed, exactly
when its own result is a non-negative descriptor, by a pool-clear `ioctl`, a
`write` of `strlen seed` bytes of the seed and a `close`, all three on that
descriptor and in that order, whatever the pool-clear and the write return; what
is done to one source depends on the result of its own `open` only. An empty
seed gives a write of zero bytes. In the world where only `/dev/urandom` opens
and its pool-clear and write fail, the write and the close still happen and
`/dev/random` is still attempted. -/
theorem entropy_sources_independent (w : World) (seed : List Nat) (s : Machine) :
    (∃ fd1 fd2 : Int,
      openResult "/dev/urandom" (privacyResetEffects w seed s) = some fd1 ∧
      openResult "/dev/random" (privacyResetEffects w seed s) = some fd2 ∧
      (callsOf (privacyResetEffects w seed s)).takeWhile isEntropyCall =
        sourceActions "/dev/urandom" fd1 seed ++ sourceActions "/dev/random" fd2 seed ∧
      (callsOf (privacyResetEffects w seed s)).filter isEntropyCall =
        sourceActions "/dev/urandom" fd1 seed ++ sourceActions "/dev/random" fd2 seed) ∧
    strlen [] = 0 ∧
    sourceActions "/dev/urandom" 3 [] =
      [Call.openFile "/dev/urandom" O_WRONLY, Call.ioctl 3 RNDCLEARPOOL, Call.write 3 [] 0,
       Call.close 3] ∧
    sourceActions "/dev/random" (-1) seed = [Call.openFile "/dev/random" O_WRONLY] ∧
    (privacyResetEffects onlyUrandomOpens seed s).take 6 =
      [logStart,
       Effect.call (Call.openFile "/dev/urandom" O_WRONLY) 3,
       Effect.call (Call.ioctl 3 RNDCLEARPOOL) (-1),
       Effect.call (Call.write 3 seed (strlen seed)) (-1),
       Effect.call (Call.close 3) (-1),
       Effect.call (Call.openFile "/dev/random" O_WRONLY) (-1)] := by
  refine ⟨?_, by decide, by decide, by simp [sourceActions], ?_⟩
  · obtain ⟨fd1, fd2, h1, h2, hcalls⟩ := privacyReset_calls w seed s
    have hpre : ∀ c ∈ sourceActions "/dev/urandom" fd1 seed ++
        sourceActions "/dev/random" fd2 seed, isEntropyCall c = true := by
      intro c hc
      rcases List.mem_append.mp hc with h | h
      · exact sourceActions_entropy _ _ _ c h
      · exact sourceActions_entropy _ _ _ c h
    refine ⟨fd1, fd2, h1, h2, ?_, ?_⟩
    · rw [hcalls, List.takeWhile_append_of_pos hpre, remediationPlan_facts.2.1]
      simp
    · rw [hcalls, List.filter_append, remediationPlan_facts.2.2.1]
      have : (sourceActions "/dev/urandom" fd1 seed ++
          sourceActions "/dev/random" fd2 seed).filter isEntropyCall =
          sourceActions "/dev/urandom" fd1 seed ++ sourceActions "/dev/random" fd2 seed := by
        rw [List.filter_eq_self]
        exact hpre
      rw [this]
      simp
  · simp [privacyResetEffects, qmp_guest_privacy_reset, sys, slog, IGNORE_RC, onlyUrandomOpens,
      logStart]

end Qga
